import Mathlib

/-!
Verification of the quick-fix application engine of the sonarlint-mcp-server
repository. The definitions below are a shallow embedding of the TypeScript
sources (`src/tools/apply-all-quick-fixes.ts`, the single-fix handler, and the
scope / filesystem-notification utilities). JavaScript strings are modelled as
`List Char`, a file's line buffer as `List (List Char)`, and JavaScript's
falsy-fallback operator `x || y` on numbers and strings by the explicit
functions `jsOr` / `jsOrS` (`0`, `""` and `undefined` are falsy). Code that can
throw is modelled with `Option` / `Except`.
-/

namespace SonarQuickFix

/-- JavaScript `x || y` for a possibly-undefined number `x`: `undefined` and
`0` are falsy, so they fall through to `y`. -/
def jsOr (x : Option Nat) (y : Nat) : Nat :=
  match x with
  | some v => if v = 0 then y else v
  | none => y

/-- JavaScript `x || y` for a possibly-undefined string `x`: `undefined` and
the empty string are falsy, so they fall through to `y`. -/
def jsOrS (x : Option (List Char)) (y : List Char) : List Char :=
  match x with
  | some v => if v = [] then y else v
  | none => y

/-- One line of a file, a JavaScript string. -/
abbrev Line := List Char

/-- The raw `textRange` record of a SLOOP issue or text edit: 1-based lines,
0-based column offsets, every field possibly absent. -/
structure TextRange where
  startLine : Option Nat
  startLineOffset : Option Nat
  endLine : Option Nat
  endLineOffset : Option Nat
deriving DecidableEq

/-- A raw text edit of a quick fix: `{range?, newText?}`. -/
structure TextEdit where
  range : Option TextRange
  newText : Option (List Char)
deriving DecidableEq

/-- A raw file edit: `{textEdits?}`. -/
structure FileEdit where
  textEdits : Option (List TextEdit)
deriving DecidableEq

/-- A raw quick fix: `{message?, inputFileEdits?, fileEdits?}`. -/
structure QuickFix where
  message : Option (List Char)
  inputFileEdits : Option (List FileEdit)
  fileEdits : Option (List FileEdit)
deriving DecidableEq

/-- A raw SLOOP issue as the two apply-fix handlers read it: the rule key, an
optional `textRange`, an optional flat `startLine`, and an optional quick-fix
list (`issue.quickFixes` may be `undefined`). -/
structure Issue where
  ruleKey : List Char
  textRange : Option TextRange
  startLine : Option Nat
  quickFixes : Option (List QuickFix)
deriving DecidableEq

/-- `issue.textRange?.startLine || issue.startLine || 0`: the line used both
for sorting and for the applied/failed records
(apply-all-quick-fixes.ts lines 54 and 64). -/
def issueSortLine (i : Issue) : Nat :=
  jsOr (i.textRange.bind TextRange.startLine) (jsOr i.startLine 0)

/-- `a.range?.startLine || 0`: the key of the within-fix edit sort
(apply-all-quick-fixes.ts lines 82-83). -/
def editSortLine (e : TextEdit) : Nat :=
  jsOr (e.range.bind TextRange.startLine) 0

/-- The filter predicate of apply-all-quick-fixes.ts lines 31-37:
`issue.quickFixes && issue.quickFixes.length > 0`. Only the presence of a
nonempty quick-fix list is checked. -/
def hasQuickFixes (i : Issue) : Bool :=
  match i.quickFixes with
  | some l => decide (0 < l.length)
  | none => false

/-- Stable insertion step for a descending sort by a `Nat` key: `x` is placed
before the first element whose key is `≤ key x`, so it stays before every
element of equal key that followed it. -/
def insertDesc (key : α → Nat) (x : α) : List α → List α
  | [] => [x]
  | y :: ys => if key y ≤ key x then x :: y :: ys else y :: insertDesc key x ys

/-- Stable descending sort by a `Nat` key. JavaScript's `Array.prototype.sort`
is required to be stable (ECMAScript 2019); with the comparator
`(a, b) => keyB - keyA` the result is the unique stable descending order by
key, which this insertion sort computes. -/
def sortDesc (key : α → Nat) (l : List α) : List α :=
  l.foldr (insertDesc key) []

/-- The Edit Planner: filter to issues with quick fixes, then the stable
descending sort by start line (apply-all-quick-fixes.ts lines 31-57). -/
def planIssues (issues : List Issue) : List Issue :=
  sortDesc issueSortLine (issues.filter hasQuickFixes)

/-- `fileContent.split('\n')`: never returns an empty list. -/
def splitNl : List Char → List Line
  | [] => [[]]
  | c :: cs =>
      if c = '\n' then [] :: splitNl cs
      else
        match splitNl cs with
        | [] => [[c]]
        | l :: rest => (c :: l) :: rest

/-- `lines.join('\n')`. -/
def joinNl : List Line → List Char
  | [] => []
  | [l] => l
  | l :: rest => l ++ '\n' :: joinNl rest

/-- `lines.splice(start, count, repl...)` restricted to what the applier uses:
remove `count` elements at `start` and insert `repl` there. (JavaScript clamps
a negative delete count to 0; the caller passes the already-clamped
`endLine + 1 - startLine`, which truncated `Nat` subtraction reproduces.) -/
def spliceLines (lines : List Line) (start count : Nat) (repl : List Line) : List Line :=
  lines.take start ++ repl ++ lines.drop (start + count)

/-- `(edit.range?.startLine || 1) - 1` (0-based start line). -/
def computedStartLine (e : TextEdit) : Nat :=
  jsOr (e.range.bind TextRange.startLine) 1 - 1

/-- `edit.range?.startLineOffset || 0`. -/
def computedStartCol (e : TextEdit) : Nat :=
  jsOr (e.range.bind TextRange.startLineOffset) 0

/-- `(edit.range?.endLine || startLine + 1) - 1` (0-based end line; the
fallback value `startLine + 1` is the already-0-based start line plus one). -/
def computedEndLine (e : TextEdit) : Nat :=
  jsOr (e.range.bind TextRange.endLine) (computedStartLine e + 1) - 1

/-- `edit.range?.endLineOffset || lines[endLine]?.length || 0`: an absent or
zero end offset falls back to the end line's current length, or to 0 when that
line does not exist. -/
def computedEndCol (lines : List Line) (e : TextEdit) : Nat :=
  jsOr (e.range.bind TextRange.endLineOffset)
    (jsOr ((lines[computedEndLine e]?).map List.length) 0)

/-- One text edit applied to the line buffer
(apply-all-quick-fixes.ts lines 87-101). `none` models a thrown `TypeError`:
`lines[startLine]` (or `lines[endLine]` in the multi-line branch) is
`undefined` and `.substring` is called on it. -/
def applyTextEdit (lines : List Line) (e : TextEdit) : Option (List Line) :=
  let startLine := computedStartLine e
  let startCol := computedStartCol e
  let endLine := computedEndLine e
  let endCol := computedEndCol lines e
  let newText := e.newText.getD []
  if startLine = endLine then
    match lines[startLine]? with
    | none => none
    | some cur =>
        some (lines.set startLine (cur.take startCol ++ newText ++ cur.drop endCol))
  else
    match lines[startLine]?, lines[endLine]? with
    | some first, some last =>
        some (spliceLines lines startLine (endLine + 1 - startLine)
          [first.take startCol ++ newText ++ last.drop endCol])
    | _, _ => none

/-- The inner `for (const edit of sortedEdits)` loop: edits applied in
sequence; a thrown error aborts the sequence. -/
def applyTextEdits (lines : List Line) : List TextEdit → Option (List Line)
  | [] => some lines
  | e :: es =>
      match applyTextEdit lines e with
      | none => none
      | some l2 => applyTextEdits l2 es

/-- One `fileEdit`: `if (fileEdit.textEdits)` (an absent list is skipped, an
empty array is truthy and loops zero times), then the edits sorted descending
by raw start line and applied. -/
def applyFileEdit (lines : List Line) (fe : FileEdit) : Option (List Line) :=
  match fe.textEdits with
  | none => some lines
  | some edits => applyTextEdits lines (sortDesc editSortLine edits)

/-- The `for (const fileEdit of fileEdits)` loop. -/
def applyFileEdits (lines : List Line) : List FileEdit → Option (List Line)
  | [] => some lines
  | fe :: fes =>
      match applyFileEdit lines fe with
      | none => none
      | some l2 => applyFileEdits l2 fes

/-- `quickFix.inputFileEdits || quickFix.fileEdits || []`: an array (even an
empty one) is truthy, so only `undefined` falls through. -/
def effectiveFileEdits (q : QuickFix) : List FileEdit :=
  match q.inputFileEdits with
  | some l => l
  | none => q.fileEdits.getD []

/-- The body of the per-issue `try` block (apply-all-quick-fixes.ts
lines 70-109): read the file, split into lines, apply the quick fix's file
edits, join. `none` models a caught exception. A `qf` of `none` models
`quickFixes[0]` being `undefined` on an empty list: accessing
`quickFix.inputFileEdits` then throws, inside the `try`. The
`if (fileEdits.length > 0)` guard of line 77 is omitted: applying an empty
edit list already leaves the buffer unchanged. -/
def tryBody (content : List Char) (qf : Option QuickFix) : Option (List Char) :=
  match qf with
  | none => none
  | some q =>
      match applyFileEdits (splitNl content) (effectiveFileEdits q) with
      | none => none
      | some lines2 => some (joinNl lines2)

/-- The default message of an applied-fix record:
`quickFix.message || 'Applied automated fix'`. -/
def defaultFixMessage : List Char := ("Applied automated fix").toList

/-- Outcome of the loop body for one issue (apply-all-quick-fixes.ts
lines 63-126). `uncaught` models `issue.quickFixes[0]` throwing on an
`undefined` quick-fix list at line 66, which stands outside the `try` and so
aborts the whole handler; the filter makes this unreachable in practice.
`failedStep` models an exception caught by the `try`. -/
inductive IssueStepOutcome
  | uncaught
  | failedStep
  | appliedStep (newContent : List Char) (message : List Char)
deriving DecidableEq

/-- One iteration of `for (const issue of sortedIssues)`. -/
def runIssueStep (content : List Char) (issue : Issue) : IssueStepOutcome :=
  match issue.quickFixes with
  | none => .uncaught
  | some qfs =>
      match tryBody content qfs.head? with
      | none => .failedStep
      | some c => .appliedStep c (jsOrS (qfs.head?.bind QuickFix.message) defaultFixMessage)

/-- An entry of `appliedFixes`: `{line, rule, message}`. -/
structure AppliedFix where
  line : Nat
  rule : List Char
  message : List Char
deriving DecidableEq

/-- An entry of `failedFixes`: `{line, rule, error}`. -/
structure FailedFix where
  line : Nat
  rule : List Char
  error : List Char
deriving DecidableEq

/-- Stand-in for the runtime exception text stored in a failed-fix record
(`error.message`, whose exact wording the runtime chooses). -/
def editErrorMessage : List Char := ("edit application error").toList

/-- State threaded through the per-issue loop: the file's current content (the
loop re-reads the file at each iteration and writes it back only on success,
so the content after the loop is the last successful write), the applied and
failed records, every content passed to `writeFileSync` in order, and whether
an uncaught exception aborted the loop. -/
structure LoopResult where
  content : List Char
  applied : List AppliedFix
  failed : List FailedFix
  writes : List (List Char)
  aborted : Bool
deriving DecidableEq

/-- The `for (const issue of sortedIssues)` loop of apply-all-quick-fixes.ts
lines 63-126. -/
def applyLoop (content : List Char) : List Issue → LoopResult
  | [] => ⟨content, [], [], [], false⟩
  | issue :: rest =>
      match runIssueStep content issue with
      | .uncaught => ⟨content, [], [], [], true⟩
      | .appliedStep c msg =>
          let r := applyLoop c rest
          ⟨r.content, ⟨issueSortLine issue, issue.ruleKey, msg⟩ :: r.applied,
            r.failed, c :: r.writes, r.aborted⟩
      | .failedStep =>
          let r := applyLoop content rest
          ⟨r.content, r.applied,
            ⟨issueSortLine issue, issue.ruleKey, editErrorMessage⟩ :: r.failed,
            r.writes, r.aborted⟩

/-- The pure core of `handleApplyAllQuickFixes`'s result: whether the early
"no quick fixes available" return was taken, the applied/failed records, the
final file content, and the writes performed. -/
structure ApplyAllResult where
  noFixesAvailable : Bool
  applied : List AppliedFix
  failed : List FailedFix
  finalContent : List Char
  writes : List (List Char)
  aborted : Bool
deriving DecidableEq

/-- `handleApplyAllQuickFixes` after the existence check and the initial
analysis (apply-all-quick-fixes.ts lines 26-126): filter to issues with quick
fixes, return the "no quick fixes available" result when none remain (before
any write), otherwise sort descending by start line and run the apply loop. -/
def handleApplyAllQuickFixes (content : List Char) (rawIssues : List Issue) : ApplyAllResult :=
  let withFixes := rawIssues.filter hasQuickFixes
  if withFixes.length = 0 then ⟨true, [], [], content, [], false⟩
  else
    let r := applyLoop content (sortDesc issueSortLine withFixes)
    ⟨false, r.applied, r.failed, r.content, r.writes, r.aborted⟩

/-- The `find` predicate of the single-fix handler (part_003 lines 28-31):
`issueLine === line && issue.ruleKey === rule` with
`issueLine = issue.textRange?.startLine || issue.startLine || 0`. -/
def issueMatches (line : Nat) (rule : List Char) (i : Issue) : Bool :=
  decide (issueSortLine i = line) && decide (i.ruleKey = rule)

/-- The error taxonomy of the single-fix handler. `editApplicationError`
models an exception thrown while applying the edits (outside any `try`), which
propagates to the caller. -/
inductive SingleFixError
  | fileNotFound
  | issueNotFound
  | noQuickFixAvailable
  | editApplicationError
deriving DecidableEq

/-- The single-fix handler `handleApplyQuickFix` (part_003 lines 7-141):
existence check before anything else, lookup of the issue at the exact
(line, rule), the no-quick-fix check on the found issue, then the first quick
fix's edits applied to the file content. `fileExists` abstracts
`existsSync(filePath)`; `rawIssues` is the fresh analysis's result; on success
the returned content is what is written back to the file. -/
def handleApplyQuickFix (fileExists : Bool) (rawIssues : List Issue)
    (line : Nat) (rule : List Char) (content : List Char) :
    Except SingleFixError (List Char) :=
  if fileExists = false then .error .fileNotFound
  else
    match rawIssues.find? (issueMatches line rule) with
    | none => .error .issueNotFound
    | some target =>
        match target.quickFixes with
        | none => .error .noQuickFixAvailable
        | some [] => .error .noQuickFixAvailable
        | some (qf :: _) =>
            match tryBody content (some qf) with
            | none => .error .editApplicationError
            | some c => .ok c

/-- The body of `notifyFileSystemChanged`'s `try` block (formatting.ts
lines 135-181), with each externally-failable step abstracted as an `Except`
value: ensure the bridge, send the `file/didOpenFile` notification, read the
file's content, send the `file/didUpdateFileSystem` notification. -/
def notifySeq {E : Type} (bridge markOpen : Except E Unit)
    (readTarget : Except E (List Char)) (sendUpdate : Except E Unit) : Except E Unit := do
  bridge
  markOpen
  let _ ← readTarget
  sendUpdate

/-- `notifyFileSystemChanged` (formatting.ts lines 116-186): the whole
sequence stands inside `try { ... } catch (err) { console.error(...) }` — the
catch logs and does not rethrow. -/
def notifyFileSystemChanged {E : Type} (bridge markOpen : Except E Unit)
    (readTarget : Except E (List Char)) (sendUpdate : Except E Unit) : Except E Unit :=
  match notifySeq bridge markOpen readTarget sendUpdate with
  | .ok _ => .ok ()
  | .error _ => .ok ()

/-- The steps `handleApplyAllQuickFixes` performs after the apply loop
(apply-all-quick-fixes.ts lines 128-134), in source order. -/
inductive PostApplyStep
  | notifyChanged
  | sleep (ms : Nat)
  | analyzeAgain
deriving DecidableEq

/-- `await notifyFileSystemChanged(...)`, then
`await new Promise(resolve => setTimeout(resolve, 500))`, then
`await bridge.analyzeFilesAndTrack(...)`. -/
def postApplySequence : List PostApplyStep :=
  [.notifyChanged, .sleep 500, .analyzeAgain]

/-- Modelled from Node's posix `path.dirname` (external library), following
its scan: from the end down to index 1, skip the run of trailing separators,
then stop at the next separator; `end` is that index. With no such separator
the result is `"/"` for a rooted path and `"."` otherwise; a rooted path with
`end = 1` gives `"//"`; otherwise the result is `path.slice(0, end)`. -/
def dirname (p : List Char) : List Char :=
  match p with
  | [] => ['.']
  | c0 :: q =>
      let hasRoot := decide (c0 = '/')
      let r1 := (q.reverse).dropWhile (fun c => decide (c = '/'))
      let r2 := r1.dropWhile (fun c => decide (c ≠ '/'))
      match r2 with
      | [] => if hasRoot then ['/'] else ['.']
      | _ :: rest =>
          let e := 1 + rest.length
          if hasRoot && decide (e = 1) then ('/') :: ['/'] else p.take e

/-- The constant prefix of every generated scope id (scope.ts line 208). -/
def scopeIdTag : List Char := ("scope-").toList

/-- A call to `sloopBridge.addConfigurationScope(newScopeId, {name})`. -/
structure ScopeRegistration where
  scopeId : List Char
  name : List Char
deriving DecidableEq

/-- Result of one `getOrCreateScope` call: the updated process-wide
`scopeMap`, the returned scope id, and the backend registrations performed. -/
structure ScopeCallResult where
  map : List (List Char × List Char)
  scopeId : List Char
  registrations : List ScopeRegistration
deriving DecidableEq

/-- `scopeMap.get(root)` over the insertion-ordered association list that
models the process-wide `Map`. -/
def lookupRoot (m : List (List Char × List Char)) (root : List Char) : Option (List Char) :=
  match m.find? (fun kv => decide (kv.fst = root)) with
  | some kv => some kv.snd
  | none => none

/-- `getOrCreateScope` (scope.ts lines 198-222). `md5hex` abstracts
`createHash('md5').update(root).digest('hex')` (a fixed 32-hex-character
digest of the root path); `bridgePresent` abstracts `getSloopBridge()`
returning a non-null bridge, in which case the new scope is registered. On a
hit the map is untouched; on a miss the new entry is stored
(`scopeMap.set`) and never removed. -/
def getOrCreateScope (md5hex : List Char → List Char) (bridgePresent : Bool)
    (m : List (List Char × List Char)) (filePath : List Char) : ScopeCallResult :=
  let projectRoot := dirname filePath
  match lookupRoot m projectRoot with
  | some scopeId => ⟨m, scopeId, []⟩
  | none =>
      let newScopeId := scopeIdTag ++ (md5hex projectRoot).take 8
      let regs := if bridgePresent then
          [⟨newScopeId, ("Project: ").toList ++ projectRoot⟩] else []
      ⟨m ++ [(projectRoot, newScopeId)], newScopeId, regs⟩

/-! ## Properties of the stable descending sort -/

theorem insertDesc_perm (key : α → Nat) (x : α) (l : List α) :
    (insertDesc key x l).Perm (x :: l) := by
  induction l with
  | nil => simp [insertDesc]
  | cons y ys ih =>
      by_cases h : key y ≤ key x
      · simp [insertDesc, h]
      · simp only [insertDesc, if_neg h]
        exact (ih.cons y).trans (List.Perm.swap x y ys)

theorem sortDesc_perm (key : α → Nat) (l : List α) : (sortDesc key l).Perm l := by
  induction l with
  | nil => simp [sortDesc]
  | cons x xs ih =>
      exact (insertDesc_perm key x (sortDesc key xs)).trans (ih.cons x)

theorem mem_insertDesc (key : α → Nat) (x z : α) (l : List α) :
    z ∈ insertDesc key x l ↔ z = x ∨ z ∈ l := by
  rw [(insertDesc_perm key x l).mem_iff, List.mem_cons]

theorem pairwise_insertDesc (key : α → Nat) (x : α) (l : List α)
    (h : List.Pairwise (fun a b => key b ≤ key a) l) :
    List.Pairwise (fun a b => key b ≤ key a) (insertDesc key x l) := by
  induction l with
  | nil => simp [insertDesc]
  | cons y ys ih =>
      rcases h with - | ⟨hy, hys⟩
      by_cases hxy : key y ≤ key x
      · simp only [insertDesc, if_pos hxy]
        refine List.Pairwise.cons ?_ (List.Pairwise.cons hy hys)
        intro z hz
        rcases List.mem_cons.mp hz with rfl | hz
        · exact hxy
        · exact Nat.le_trans (hy z hz) hxy
      · simp only [insertDesc, if_neg hxy]
        refine List.Pairwise.cons ?_ (ih hys)
        intro z hz
        rcases (mem_insertDesc key x z ys).mp hz with rfl | hz
        · exact Nat.le_of_lt (Nat.lt_of_not_le hxy)
        · exact hy z hz

theorem sortDesc_pairwise (key : α → Nat) (l : List α) :
    List.Pairwise (fun a b => key b ≤ key a) (sortDesc key l) := by
  induction l with
  | nil => simp [sortDesc]
  | cons x xs ih => exact pairwise_insertDesc key x (sortDesc key xs) ih

theorem insertDesc_filter_eq (key : α → Nat) (x : α) (l : List α) (k : Nat)
    (hk : key x = k) :
    (insertDesc key x l).filter (fun y => decide (key y = k))
      = x :: l.filter (fun y => decide (key y = k)) := by
  subst hk
  induction l with
  | nil => simp [insertDesc]
  | cons y ys ih =>
      by_cases hxy : key y ≤ key x
      · simp [insertDesc, hxy, List.filter_cons]
      · have hyk : ¬ key y = key x := by omega
        simp [insertDesc, hxy, List.filter_cons, hyk, ih]

theorem insertDesc_filter_ne (key : α → Nat) (x : α) (l : List α) (k : Nat)
    (hk : ¬ key x = k) :
    (insertDesc key x l).filter (fun y => decide (key y = k))
      = l.filter (fun y => decide (key y = k)) := by
  induction l with
  | nil => simp [insertDesc, hk]
  | cons y ys ih =>
      by_cases hxy : key y ≤ key x
      · simp [insertDesc, hxy, List.filter_cons, hk]
      · simp [insertDesc, hxy, List.filter_cons, ih]

theorem sortDesc_filter_key (key : α → Nat) (l : List α) (k : Nat) :
    (sortDesc key l).filter (fun y => decide (key y = k))
      = l.filter (fun y => decide (key y = k)) := by
  induction l with
  | nil => rfl
  | cons x xs ih =>
      have hrw : sortDesc key (x :: xs) = insertDesc key x (sortDesc key xs) := rfl
      by_cases hk : key x = k
      · rw [hrw, insertDesc_filter_eq key x (sortDesc key xs) k hk, ih]
        simp [List.filter_cons, hk]
      · rw [hrw, insertDesc_filter_ne key x (sortDesc key xs) k hk, ih]
        simp [List.filter_cons, hk]

/-! ## Concrete fixtures -/

/-- A quick fix whose single file edit carries an empty text-edit list. -/
def emptyEditFix : QuickFix := ⟨none, some [⟨some []⟩], none⟩

/-- An issue at start line 5 whose only quick fix is `emptyEditFix`. -/
def c1Issue : Issue :=
  ⟨("r1").toList, some ⟨some 5, some 0, some 5, some 2⟩, none, some [emptyEditFix]⟩

/-- The flattened text-edit list of an issue's first quick fix. -/
def firstFixTextEdits (i : Issue) : List TextEdit :=
  match i.quickFixes with
  | some (qf :: _) => (effectiveFileEdits qf).foldr (fun fe acc => fe.textEdits.getD [] ++ acc) []
  | _ => []

/-- An issue at the given start line carrying one (edit-less) quick fix, used
for the sort examples. -/
def lineOnlyIssue (ln : Nat) (rule : List Char) : Issue :=
  ⟨rule, some ⟨some ln, none, some ln, none⟩, none, some [emptyEditFix]⟩

/-- An issue with no resolvable position (neither `textRange` nor
`startLine`). -/
def noPositionIssue : Issue := ⟨("r0").toList, none, none, some [emptyEditFix]⟩

/-! ## C1 -/

/-- C1, counterexample: the filter of apply-all-quick-fixes.ts lines 31-37
checks only that `issue.quickFixes` is nonempty. `c1Issue`, whose first (and
only) quick fix has an empty text-edit list, passes the filter and appears in
the planned application order, so it is not true that an issue is selected
only if its first fix's edit list is nonempty. -/
theorem c1_counterexample :
    planIssues [c1Issue] = [c1Issue]
    ∧ c1Issue.quickFixes = some [emptyEditFix]
    ∧ firstFixTextEdits c1Issue = [] := by
  refine ⟨?_, rfl, rfl⟩
  rfl

/-- C1 (amended): the Edit Planner's filter selects an issue if and only if
its quick-fix list is present and nonempty; the edit list of the fix is not
inspected, so an issue whose first fix has an empty edit list still appears in
the planned order. -/
theorem c1_filter_membership (issues : List Issue) (i : Issue) :
    i ∈ planIssues issues ↔ i ∈ issues ∧ hasQuickFixes i = true := by
  unfold planIssues
  rw [(sortDesc_perm issueSortLine (issues.filter hasQuickFixes)).mem_iff]
  exact List.mem_filter

/-! ## C2 -/

/-- C2: the Edit Planner's ordering is a stable descending sort by start line:
the planned list is pairwise descending in `issueSortLine`; for every key the
issues of that start line appear exactly as in the filtered input (ties keep
their relative input order); the plan is a permutation of the filtered input;
an issue with no resolvable position gets key 0 (and, the keys being `Nat`,
the pairwise-descending order puts key-0 issues last); and the concrete input
with start lines `[5, 15, 10, 3]` is planned in order `[15, 10, 5, 3]`. -/
theorem c2_planner_ordering (issues : List Issue) :
    List.Pairwise (fun a b => issueSortLine b ≤ issueSortLine a) (planIssues issues)
    ∧ (∀ k, (planIssues issues).filter (fun i => decide (issueSortLine i = k))
        = (issues.filter hasQuickFixes).filter (fun i => decide (issueSortLine i = k)))
    ∧ (planIssues issues).Perm (issues.filter hasQuickFixes)
    ∧ (∀ i : Issue, i.textRange = none → i.startLine = none → issueSortLine i = 0)
    ∧ planIssues
        [lineOnlyIssue 5 (("a").toList), lineOnlyIssue 15 (("b").toList),
         lineOnlyIssue 10 (("c").toList), lineOnlyIssue 3 (("d").toList)]
      = [lineOnlyIssue 15 (("b").toList), lineOnlyIssue 10 (("c").toList),
         lineOnlyIssue 5 (("a").toList), lineOnlyIssue 3 (("d").toList)] := by
  refine ⟨sortDesc_pairwise issueSortLine (issues.filter hasQuickFixes),
    fun k => sortDesc_filter_key issueSortLine (issues.filter hasQuickFixes) k,
    sortDesc_perm issueSortLine (issues.filter hasQuickFixes),
    ?_, by rfl⟩
  intro i h1 h2
  simp [issueSortLine, jsOr, h1, h2]

/-! ## C3 and C4: the Edit Applier on single edits -/

theorem jsOr_some_zero (v : Nat) : jsOr (some v) 0 = v := by
  by_cases h : v = 0 <;> simp [jsOr, h]

theorem jsOr_some_zero_left (y : Nat) : jsOr (some 0) y = y := by
  simp [jsOr]

theorem jsOr_none (y : Nat) : jsOr none y = y := rfl

theorem jsOr_some_of_ne (v y : Nat) (h : v ≠ 0) : jsOr (some v) y = v := by
  simp [jsOr, h]

/-- A `textRange` with every field present (1-based lines `a`, `b`; 0-based
column offsets `sc`, `ec`). -/
def mkRange (a sc b ec : Nat) : TextRange := ⟨some a, some sc, some b, some ec⟩

/-- A text edit with a fully explicit range and replacement text. -/
def mkEdit (a sc b ec : Nat) (t : List Char) : TextEdit := ⟨some (mkRange a sc b ec), some t⟩

theorem computedStartLine_mkEdit (a sc b ec : Nat) (t : List Char) :
    computedStartLine (mkEdit (a + 1) sc b ec t) = a := by
  simp [computedStartLine, mkEdit, mkRange, jsOr]

theorem computedStartCol_mkEdit (a sc b ec : Nat) (t : List Char) :
    computedStartCol (mkEdit a sc b ec t) = sc := by
  simp [computedStartCol, mkEdit, mkRange, jsOr_some_zero]

theorem computedEndLine_mkEdit (a sc b ec : Nat) (t : List Char) :
    computedEndLine (mkEdit a sc (b + 1) ec t) = b := by
  simp [computedEndLine, mkEdit, mkRange, jsOr]

theorem computedEndCol_mkEdit (lines : List Line) (a sc b ec : Nat) (t : List Char)
    (h : ec ≠ 0) : computedEndCol lines (mkEdit a sc b ec t) = ec := by
  simp [computedEndCol, mkEdit, mkRange, jsOr_some_of_ne _ _ h]

theorem newText_mkEdit (a sc b ec : Nat) (t : List Char) :
    (mkEdit a sc b ec t).newText = some t := rfl

/-- C3: a same-line edit with an explicit range (nonzero end column, so no
fallback applies) replaces the column span `[startCol, endCol)` of the target
line and leaves every other line untouched; in particular replacing columns
`[2, 5)` of `"  var x = 1;"` with `"const"` gives `"  const x = 1;"`, and
replacing columns `[2, 9)` of `"  return;"` with `""` gives `"  "`, the
adjacent lines unchanged in both cases. -/
theorem c3_same_line_edit (lines : List Line) (sl sc ec : Nat) (t cur : List Char)
    (hec : ec ≠ 0) (hcur : lines[sl]? = some cur) :
    applyTextEdit lines (mkEdit (sl + 1) sc (sl + 1) ec t)
      = some (lines.set sl (cur.take sc ++ t ++ cur.drop ec))
    ∧ (∀ j, j ≠ sl → (lines.set sl (cur.take sc ++ t ++ cur.drop ec))[j]? = lines[j]?)
    ∧ applyTextEdit [("line0").toList, ("  var x = 1;").toList, ("line2").toList]
        (mkEdit 2 2 2 5 (("const").toList))
      = some [("line0").toList, ("  const x = 1;").toList, ("line2").toList]
    ∧ applyTextEdit [("before").toList, ("  return;").toList, ("after").toList]
        (mkEdit 2 2 2 9 [])
      = some [("before").toList, ("  ").toList, ("after").toList] := by
  refine ⟨?_, ?_, by rfl, by rfl⟩
  · simp only [applyTextEdit, computedStartLine_mkEdit, computedStartCol_mkEdit,
      computedEndLine_mkEdit, computedEndCol_mkEdit lines (sl + 1) sc (sl + 1) ec t hec,
      newText_mkEdit, Option.getD_some, hcur, if_pos rfl]
    simp
  · intro j hj
    exact List.getElem?_set_ne (Ne.symm hj)

/-- C4: a multi-line edit with an explicit range (start line strictly below
end line, nonzero end column) splices the single line
`firstLine.take startCol ++ newText ++ lastLine.drop endCol` in place of the
whole `[startLine, endLine]` range: the result is exactly the untouched lines
before the range, that one line, and the untouched lines after the range, and
the buffer shrinks by `endLine - startLine` lines. -/
theorem c4_multi_line_edit (lines : List Line) (sl el sc ec : Nat)
    (t first last : List Char)
    (hlt : sl < el) (hec : ec ≠ 0)
    (hfirst : lines[sl]? = some first) (hlast : lines[el]? = some last) :
    applyTextEdit lines (mkEdit (sl + 1) sc (el + 1) ec t)
      = some (lines.take sl ++ [first.take sc ++ t ++ last.drop ec] ++ lines.drop (el + 1))
    ∧ (lines.take sl ++ [first.take sc ++ t ++ last.drop ec] ++ lines.drop (el + 1)).length
      = lines.length - (el - sl) := by
  have helt : el < lines.length := by
    rcases List.getElem?_eq_some_iff.mp hlast with ⟨h, -⟩
    exact h
  constructor
  · have hidx : sl + (el + 1 - sl) = el + 1 := by omega
    simp only [applyTextEdit, computedStartLine_mkEdit, computedStartCol_mkEdit,
      computedEndLine_mkEdit, computedEndCol_mkEdit lines (sl + 1) sc (el + 1) ec t hec,
      newText_mkEdit, Option.getD_some, hfirst, hlast, if_neg (Nat.ne_of_lt hlt),
      spliceLines, hidx]
  · simp only [List.length_append, List.length_take, List.length_drop, List.length_cons,
      List.length_nil]
    omega

/-- C3, witness: replacing columns `[1, 2)` of the single line `"abc"` with
`"X"` yields `"aXc"`. -/
theorem c3_witness :
    applyTextEdit [("abc").toList] (mkEdit 1 1 1 2 (("X").toList))
      = some [("aXc").toList] := by
  have h := (c3_same_line_edit [("abc").toList] 0 1 2 (("X").toList) (("abc").toList)
    (by decide) (by rfl)).1
  exact h.trans (by rfl)

/-- C4, witness: the multi-line edit (1,1)-(2,1) with replacement `"Z"` on
`["ab", "cd", "ef"]` collapses the first two lines into `"aZd"`. -/
theorem c4_witness :
    applyTextEdit [("ab").toList, ("cd").toList, ("ef").toList]
        (mkEdit 1 1 2 1 (("Z").toList))
      = some [("aZd").toList, ("ef").toList] := by
  have h := (c4_multi_line_edit [("ab").toList, ("cd").toList, ("ef").toList] 0 1 1 1
    (("Z").toList) (("ab").toList) (("cd").toList) (by decide) (by decide)
    (by rfl) (by rfl)).1
  exact h.trans (by rfl)

/-! ## C5 and C6: the apply loop -/

/-- A quick fix replacing the column span `[0, 1)` of line `ln` with `t`. -/
def sameLineFix (ln : Nat) (t : List Char) : QuickFix :=
  ⟨some (("fix").toList), some [⟨some [mkEdit ln 0 ln 1 t]⟩], none⟩

/-- An issue at line `ln` whose quick fix replaces that line's first column
span with `t`. -/
def fixableIssue (ln : Nat) (rule t : List Char) : Issue :=
  ⟨rule, some ⟨some ln, some 0, some ln, some 1⟩, none, some [sameLineFix ln t]⟩

/-- An issue reported at line 7 whose quick fix addresses line 100, far past
the end of the 12-line fixture file: applying it throws inside the `try`. -/
def c5Bad : Issue :=
  ⟨("r7").toList, some ⟨some 7, some 0, some 7, some 1⟩, none,
    some [⟨some (("fix").toList), some [⟨some [mkEdit 100 0 100 1 (("X").toList)]⟩], none⟩]⟩

/-- A 12-line fixture file. -/
def c5Content : List Char := ("a\nb\nc\nd\ne\nf\ng\nh\ni\nj\nk\nl").toList

/-- Five fixable issues at lines 3, 4, 5, 7 and 11; the one at line 7 fails
during application. -/
def c5Issues : List Issue :=
  [fixableIssue 3 (("r3").toList) (("C").toList),
   fixableIssue 4 (("r4").toList) (("D").toList),
   fixableIssue 5 (("r5").toList) (("E").toList),
   c5Bad,
   fixableIssue 11 (("r11").toList) (("K").toList)]

/-- C5: a caught failure while applying one issue's fix appends a
`{position, rule, errorDetail}` record to the failed list, performs no write
(the content handed to the rest of the loop is unchanged) and continues with
the remaining issues; concretely, with exactly one of five planned issues
failing, 4 fixes are applied (4 writes), 1 is recorded failed at its line and
rule, the batch is not aborted, and the final content carries exactly the four
successful fixes at their unshifted positions. -/
theorem c5_failure_isolation :
    (∀ (content : List Char) (issue : Issue) (rest : List Issue),
        runIssueStep content issue = .failedStep →
        applyLoop content (issue :: rest)
          = ⟨(applyLoop content rest).content,
             (applyLoop content rest).applied,
             ⟨issueSortLine issue, issue.ruleKey, editErrorMessage⟩
               :: (applyLoop content rest).failed,
             (applyLoop content rest).writes,
             (applyLoop content rest).aborted⟩)
    ∧ (handleApplyAllQuickFixes c5Content c5Issues).applied.length = 4
    ∧ (handleApplyAllQuickFixes c5Content c5Issues).failed
        = [⟨7, ("r7").toList, editErrorMessage⟩]
    ∧ (handleApplyAllQuickFixes c5Content c5Issues).writes.length = 4
    ∧ (handleApplyAllQuickFixes c5Content c5Issues).finalContent
        = ("a\nb\nC\nD\nE\nf\ng\nh\ni\nj\nK\nl").toList
    ∧ (handleApplyAllQuickFixes c5Content c5Issues).aborted = false := by
  refine ⟨?_, by decide, by decide, by decide, by decide, by decide⟩
  intro content issue rest h
  simp [applyLoop, h]

/-- An issue with an empty quick-fix list, filtered out by the planner. -/
def c6NoFixIssue : Issue := ⟨("r9").toList, some ⟨some 2, none, some 2, none⟩, none, some []⟩

/-- C6: when no issue passes the quick-fix filter, the handler takes the early
"no quick fixes available" return: no applied records, no writes, and the file
content unchanged. -/
theorem c6_no_fixes_available (content : List Char) (rawIssues : List Issue)
    (h : rawIssues.filter hasQuickFixes = []) :
    handleApplyAllQuickFixes content rawIssues = ⟨true, [], [], content, [], false⟩ := by
  unfold handleApplyAllQuickFixes
  rw [h]
  rfl

/-- C6, witness: a concrete run with two unfixable issues performs no write
and returns the "no fixes available" result. -/
theorem c6_witness :
    handleApplyAllQuickFixes (("x\ny").toList) [c6NoFixIssue, ⟨("r8").toList, none, none, none⟩]
      = ⟨true, [], [], ("x\ny").toList, [], false⟩ :=
  c6_no_fixes_available (("x\ny").toList)
    [c6NoFixIssue, ⟨("r8").toList, none, none, none⟩] (by decide)

/-! ## C7: the single-fix handler -/

/-- With the file present, the handler is the lookup/quick-fix/apply cascade
of part_003 lines 21-141. -/
theorem handleApplyQuickFix_exists (issues : List Issue) (line : Nat)
    (rule content : List Char) :
    handleApplyQuickFix true issues line rule content
      = match issues.find? (issueMatches line rule) with
        | none => .error .issueNotFound
        | some target =>
            match target.quickFixes with
            | none => .error .noQuickFixAvailable
            | some [] => .error .noQuickFixAvailable
            | some (qf :: _) =>
                match tryBody content (some qf) with
                | none => .error .editApplicationError
                | some c => .ok c := rfl

/-- C7 (amended): with the file absent the handler fails with `FileNotFound`
independently of any analysis result (the check precedes the backend call);
with the file present it fails with `IssueNotFound` exactly when no issue
matches the given (line, rule); it fails with `NoQuickFixAvailable` when the
found issue's quick-fix list is absent or empty; and when the found issue has
a first quick fix whose edits all apply within the file's bounds, the handler
succeeds with the edited content. -/
theorem c7_single_fix_contract :
    (∀ (issuesA issuesB : List Issue) (line : Nat) (rule content : List Char),
        handleApplyQuickFix false issuesA line rule content = .error .fileNotFound
        ∧ handleApplyQuickFix false issuesA line rule content
            = handleApplyQuickFix false issuesB line rule content)
    ∧ (∀ (issues : List Issue) (line : Nat) (rule content : List Char),
        handleApplyQuickFix true issues line rule content = .error .issueNotFound
          ↔ issues.find? (issueMatches line rule) = none)
    ∧ (∀ (issues : List Issue) (line : Nat) (rule content : List Char) (target : Issue),
        issues.find? (issueMatches line rule) = some target →
        (target.quickFixes = none ∨ target.quickFixes = some []) →
        handleApplyQuickFix true issues line rule content = .error .noQuickFixAvailable)
    ∧ (∀ (issues : List Issue) (line : Nat) (rule content : List Char)
        (target : Issue) (qf : QuickFix) (qfs : List QuickFix) (c : List Char),
        issues.find? (issueMatches line rule) = some target →
        target.quickFixes = some (qf :: qfs) →
        tryBody content (some qf) = some c →
        handleApplyQuickFix true issues line rule content = .ok c) := by
  refine ⟨fun _ _ _ _ _ => ⟨rfl, rfl⟩, ?_, ?_, ?_⟩
  · intro issues line rule content
    rw [handleApplyQuickFix_exists]
    cases hf : issues.find? (issueMatches line rule) with
    | none => simp
    | some t =>
        simp only [Option.some_ne_none, iff_false]
        cases t.quickFixes with
        | none => simp
        | some l =>
            cases l with
            | nil => simp
            | cons qf qfs =>
                cases htb : tryBody content (some qf) <;> simp [htb]
  · intro issues line rule content target hf hq
    rw [handleApplyQuickFix_exists, hf]
    rcases hq with hq | hq <;> simp [hq]
  · intro issues line rule content target qf qfs c hf hq ht
    rw [handleApplyQuickFix_exists, hf]
    simp [hq, ht]

/-- A quick fix whose only edit addresses line 100. -/
def c7BadFix : QuickFix :=
  ⟨none, some [⟨some [mkEdit 100 0 100 1 (("X").toList)]⟩], none⟩

/-- An issue at line 5 carrying `c7BadFix`. -/
def c7BadIssue : Issue :=
  ⟨("r7").toList, some ⟨some 5, some 0, some 5, some 1⟩, none, some [c7BadFix]⟩

/-- C7, counterexample: the file exists, the fresh analysis holds an issue at
exactly (5, "r7") and its quick-fix list is nonempty — so the claim asserts
the call applies the fix and succeeds — yet the handler fails: the fix's edit
addresses line 100 of a one-line file and the thrown error propagates as an
edit-application failure. -/
theorem c7_counterexample :
    [c7BadIssue].find? (issueMatches 5 (("r7").toList)) = some c7BadIssue
    ∧ c7BadIssue.quickFixes = some [c7BadFix]
    ∧ handleApplyQuickFix true [c7BadIssue] 5 (("r7").toList) (("a").toList)
        = .error .editApplicationError := by
  refine ⟨by decide, rfl, by rfl⟩

/-! ## C8: notification failures are swallowed; fixed settle interval -/

/-- C8: however the bridge lookup, the open-file notification, the file read
or the filesystem-changed notification fail, `notifyFileSystemChanged`
returns normally (the `catch` logs and swallows every error); and after the
apply loop the handler's post-steps are, in order: the change notification, a
fixed 500 ms sleep, and only then the re-analysis call. -/
theorem c8_notify_errors_swallowed :
    (∀ (E : Type) (bridge markOpen sendUpdate : Except E Unit)
        (readTarget : Except E (List Char)),
        notifyFileSystemChanged bridge markOpen readTarget sendUpdate = .ok ())
    ∧ postApplySequence
        = [PostApplyStep.notifyChanged, PostApplyStep.sleep 500, PostApplyStep.analyzeAgain] := by
  refine ⟨?_, rfl⟩
  intro E bridge markOpen sendUpdate readTarget
  unfold notifyFileSystemChanged
  cases notifySeq bridge markOpen readTarget sendUpdate <;> rfl

/-! ## C9: scope resolution -/

theorem lookupRoot_append_single (m : List (List Char × List Char)) (root v : List Char)
    (h : lookupRoot m root = none) :
    lookupRoot (m ++ [(root, v)]) root = some v := by
  unfold lookupRoot at h ⊢
  rw [List.find?_append]
  cases hf : m.find? (fun kv => decide (kv.fst = root)) with
  | some kv => rw [hf] at h; simp at h
  | none => simp

theorem lookupRoot_append_preserve (m tail : List (List Char × List Char))
    (root v : List Char) (h : lookupRoot m root = some v) :
    lookupRoot (m ++ tail) root = some v := by
  unfold lookupRoot at h ⊢
  rw [List.find?_append]
  cases hf : m.find? (fun kv => decide (kv.fst = root)) with
  | some kv =>
      rw [hf] at h
      simp at h
      simp [h]
  | none => rw [hf] at h; simp at h

/-- C9 (amended): scope resolution is deterministic and memoized per project
root: two successive calls on paths with the same parent directory return the
same scope id (whatever the bridge state at each call); on a cache miss the
returned id is the constant tag `"scope-"` followed by the first 8 characters
of the (32-hex-character) digest of the root — 14 characters in all — the
root-to-id entry is stored, and the new scope is registered with the backend
exactly when the bridge is initialized at the time of the call (`getSloopBridge()`
non-null), the registration being skipped otherwise; existing entries are
never removed by a call. -/
theorem c9_scope_resolution (md5hex : List Char → List Char)
    (hlen : ∀ s, (md5hex s).length = 32)
    (bp1 bp2 : Bool)
    (m : List (List Char × List Char)) (p1 p2 : List Char)
    (hdir : dirname p1 = dirname p2) :
    (getOrCreateScope md5hex bp2 ((getOrCreateScope md5hex bp1 m p1).map) p2).scopeId
      = (getOrCreateScope md5hex bp1 m p1).scopeId
    ∧ (lookupRoot m (dirname p1) = none →
        (getOrCreateScope md5hex bp1 m p1).scopeId
            = scopeIdTag ++ (md5hex (dirname p1)).take 8
        ∧ ((getOrCreateScope md5hex bp1 m p1).scopeId).length = 14
        ∧ (getOrCreateScope md5hex bp1 m p1).registrations
            = (if bp1 then
                [⟨scopeIdTag ++ (md5hex (dirname p1)).take 8,
                  ("Project: ").toList ++ dirname p1⟩] else [])
        ∧ lookupRoot ((getOrCreateScope md5hex bp1 m p1).map) (dirname p1)
            = some ((getOrCreateScope md5hex bp1 m p1).scopeId))
    ∧ (∀ root v, lookupRoot m root = some v →
        lookupRoot ((getOrCreateScope md5hex bp1 m p1).map) root = some v) := by
  cases hl : lookupRoot m (dirname p1) with
  | some id =>
      refine ⟨?_, ?_, ?_⟩
      · simp [getOrCreateScope, hl, ← hdir]
      · intro hnone
        simp at hnone
      · intro root v hv
        simp [getOrCreateScope, hl, hv]
  | none =>
      refine ⟨?_, ?_, ?_⟩
      · have hmap : (getOrCreateScope md5hex bp1 m p1).map
            = m ++ [(dirname p1, scopeIdTag ++ (md5hex (dirname p1)).take 8)] := by
          simp [getOrCreateScope, hl]
        have hid : (getOrCreateScope md5hex bp1 m p1).scopeId
            = scopeIdTag ++ (md5hex (dirname p1)).take 8 := by
          simp [getOrCreateScope, hl]
        rw [hmap, hid]
        simp [getOrCreateScope, ← hdir,
          lookupRoot_append_single m (dirname p1) (scopeIdTag ++ (md5hex (dirname p1)).take 8) hl]
      · intro _
        refine ⟨by simp [getOrCreateScope, hl], ?_, by simp [getOrCreateScope, hl], ?_⟩
        · have hid : (getOrCreateScope md5hex bp1 m p1).scopeId
              = scopeIdTag ++ (md5hex (dirname p1)).take 8 := by
            simp [getOrCreateScope, hl]
          rw [hid]
          simp [List.length_append, List.length_take, hlen (dirname p1), scopeIdTag]
        · have hmap : (getOrCreateScope md5hex bp1 m p1).map
              = m ++ [(dirname p1, scopeIdTag ++ (md5hex (dirname p1)).take 8)] := by
            simp [getOrCreateScope, hl]
          have hid : (getOrCreateScope md5hex bp1 m p1).scopeId
              = scopeIdTag ++ (md5hex (dirname p1)).take 8 := by
            simp [getOrCreateScope, hl]
          rw [hmap, hid]
          exact lookupRoot_append_single m (dirname p1) _ hl
      · intro root v hv
        have hmap : (getOrCreateScope md5hex bp1 m p1).map
            = m ++ [(dirname p1, scopeIdTag ++ (md5hex (dirname p1)).take 8)] := by
          simp [getOrCreateScope, hl]
        rw [hmap]
        exact lookupRoot_append_preserve m _ root v hv

/-- A stand-in md5 digest function for the C9 witness: constantly a fixed
32-hex-character string. -/
def c9md5 : List Char → List Char := fun _ => ("0123456789abcdef0123456789abcdef").toList

/-- C9, witness: two successive calls on `/a/b.ts` and `/a/c.ts` (same parent
directory `/a`) starting from the empty map return the same scope id. -/
theorem c9_witness :
    (getOrCreateScope c9md5 true ((getOrCreateScope c9md5 true [] (("/a/b.ts").toList)).map)
        (("/a/c.ts").toList)).scopeId
      = (getOrCreateScope c9md5 true [] (("/a/b.ts").toList)).scopeId :=
  (c9_scope_resolution c9md5 (fun _ => rfl) true true [] (("/a/b.ts").toList)
    (("/a/c.ts").toList) (by decide)).1

/-- C9, counterexample: `handleAnalyzeFiles` (analyze-files.ts) calls
`getOrCreateScope` at line 42 and awaits `ensureSloopBridge()` only afterwards
at line 50, so on a fresh process whose first operation is `analyze_files` the
global bridge is still null at the cache miss (`getSloopBridge()` returns
null, scope.ts lines 213-218): the scope id is computed and returned and the
root-to-id entry is stored, but no scope is registered with the backend —
refuting the claim's clause that on a cache miss the new scope is registered
with the backend. -/
theorem c9_counterexample :
    (getOrCreateScope c9md5 false [] (("/a/b.ts").toList)).registrations = []
    ∧ (getOrCreateScope c9md5 false [] (("/a/b.ts").toList)).scopeId
        = scopeIdTag ++ (c9md5 (("/a").toList)).take 8
    ∧ lookupRoot ((getOrCreateScope c9md5 false [] (("/a/b.ts").toList)).map)
        (("/a").toList)
        = some ((getOrCreateScope c9md5 false [] (("/a/b.ts").toList)).scopeId) := by
  refine ⟨by rfl, by rfl, by rfl⟩

/-! ## C10: the end-column zero/absent fallback -/

/-- C10: when a text edit's `endLineOffset` is 0 or absent, the applier
substitutes the end line's current length as the end column (or 0 when that
line does not exist), so a span legitimately ending at column 0 is applied as
ending at the end of its line; and the applier cannot distinguish an explicit
end column of 0 from a missing one — the two edits are applied identically. -/
theorem c10_end_col_zero_fallback (lines : List Line) (r : TextRange) (t : Option (List Char))
    (h : r.endLineOffset = some 0 ∨ r.endLineOffset = none) :
    (∀ l, lines[computedEndLine ⟨some r, t⟩]? = some l →
        computedEndCol lines ⟨some r, t⟩ = l.length)
    ∧ (lines[computedEndLine ⟨some r, t⟩]? = none →
        computedEndCol lines ⟨some r, t⟩ = 0)
    ∧ applyTextEdit lines ⟨some ⟨r.startLine, r.startLineOffset, r.endLine, some 0⟩, t⟩
      = applyTextEdit lines ⟨some ⟨r.startLine, r.startLineOffset, r.endLine, none⟩, t⟩ := by
  refine ⟨?_, ?_, ?_⟩
  · intro l hl
    unfold computedEndCol
    rcases h with h | h <;>
      simp [h, hl, jsOr_some_zero_left, jsOr_none, jsOr_some_zero]
  · intro hl
    unfold computedEndCol
    rcases h with h | h <;>
      simp [h, hl, jsOr_some_zero_left, jsOr_none]
  · rfl

/-- C10, witness: on the one-line file `"ab"`, an edit of range
(1,0)-(1,0) — explicit end column 0 — gets end column 2, the length of the
line. -/
theorem c10_witness :
    computedEndCol [("ab").toList] ⟨some (mkRange 1 0 1 0), some []⟩ = 2 := by
  have h := (c10_end_col_zero_fallback [("ab").toList] (mkRange 1 0 1 0) (some [])
    (Or.inl rfl)).1 (("ab").toList) (by rfl)
  exact h.trans rfl

end SonarQuickFix
